import Mathlib

/-!
Verification of the subtitle annotation engine of the r36s viewer.

C strings are embedded as lists of byte values (`List Nat`, each < 256 in
practice).  Each Lean definition is a direct translation of the C function of
the same name in src/; loops over a string index are rendered as structural
recursion over the remaining byte list, with an explicit fuel argument when the
loop advances by more than one byte per iteration (the fuel is set to the byte
count, which bounds the number of loop iterations of the C code).
-/

namespace Subrim

/-- Byte predicate used by strdup_trim_range: space or horizontal tab. -/
def isSpaceTab (c : Nat) : Bool := c == 32 || c == 9

/-- Trim leading and trailing spaces/tabs, as strdup_trim_range does with its
start/end index adjustments (r36s_viewer.c:43-52). -/
def strTrim (l : List Nat) : List Nat :=
  ((l.dropWhile isSpaceTab).reverse.dropWhile isSpaceTab).reverse

/-- strdup_trim_range(s, start, end): the byte range [start, end) of s with
surrounding spaces/tabs removed (r36s_viewer.c:43-52). -/
def strdup_trim_range (s : List Nat) (start stop : Nat) : List Nat :=
  strTrim ((s.take stop).drop start)

/-- UTF-8 encoding of one Unicode codepoint, used only to build concrete byte
strings for test inputs. -/
def utf8EncodeCp (c : Nat) : List Nat :=
  if c < 128 then [c]
  else if c < 2048 then [192 + c / 64, 128 + c % 64]
  else if c < 65536 then [224 + c / 4096, 128 + c / 64 % 64, 128 + c % 64]
  else [240 + c / 262144, 128 + c / 4096 % 64, 128 + c / 64 % 64, 128 + c % 64]

/-- The UTF-8 byte list of a Lean string literal (concrete test inputs). -/
def utf8 (s : String) : List Nat :=
  (s.data.map (fun c => utf8EncodeCp c.toNat)).flatten

/-- Advance of a UTF-8 lead byte: the C classification
"(c & 0xE0) == 0xC0 ? 2 : (c & 0xF0) == 0xE0 ? 3 : (c & 0xF8) == 0xF0 ? 4 : 1"
used in build_word_layout, utf8_substr_by_cp and recreate_text_with_layout. -/
def utf8Adv (c : Nat) : Nat :=
  if c &&& 224 == 192 then 2
  else if c &&& 240 == 224 then 3
  else if c &&& 248 == 240 then 4
  else 1

/-- utf8_count_codepoints (text.c:7-16): counts bytes that are not UTF-8
continuation bytes, i.e. bytes c with (c & 0xC0) != 0x80. -/
def utf8_count_codepoints (s : List Nat) : Nat :=
  (s.filter (fun c => !(c &&& 192 == 128))).length

/-! ### PairsParser: extract_words_and_items_from_pairs (r36s_viewer.c:112-166) -/

/-- Word part of a quoted segment in the bracketed encoding: the prefix before
the first '(' (byte 40) if any, else before the first ':' (byte 58) if any,
else the whole segment (r36s_viewer.c:127-129). -/
def bracketWord (seg : List Nat) : List Nat :=
  if seg.any (fun c => c == 40) then seg.takeWhile (fun c => !(c == 40))
  else if seg.any (fun c => c == 58) then seg.takeWhile (fun c => !(c == 58))
  else seg

/-- The PairItem emitted for one quoted segment of the bracketed encoding:
(trimmed word, trimmed whole segment), kept only when both are non-empty
(r36s_viewer.c:130-135). -/
def bracketEmit (content : List Nat) : List (List Nat × List Nat) :=
  let w := strTrim (bracketWord content)
  let it := strTrim content
  if w ≠ [] ∧ it ≠ [] then [(w, it)] else []

/-- Scanning loop of the bracketed branch (r36s_viewer.c:121-137): find an
opening quote (byte 34), take the content up to the closing quote, emit the
item, resume after the closing quote; an unterminated quote stops the scan.
The fuel argument bounds the loop; one unit is spent per byte passed, exactly
as the C index i increases. -/
def scanQuotedItemsAux : Nat → List Nat → List (List Nat × List Nat)
  | 0, _ => []
  | _, [] => []
  | fuel + 1, c :: rest =>
    if c = 34 then
      let content := rest.takeWhile (fun x => !(x == 34))
      match rest.dropWhile (fun x => !(x == 34)) with
      | [] => []
      | _ :: tail => bracketEmit content ++ scanQuotedItemsAux fuel tail
    else scanQuotedItemsAux fuel rest

/-- The bracketed-list branch of extract_words_and_items_from_pairs. -/
def scanQuotedItems (l : List Nat) : List (List Nat × List Nat) :=
  scanQuotedItemsAux l.length l

/-- The PairItem emitted for one comma-separated segment
(r36s_viewer.c:142-149): the word is the trimmed prefix before the first
occurrence of '(' or ':' (a single scan stopping at whichever comes first),
the item is the trimmed whole segment; kept only when both are non-empty. -/
def segItem (seg : List Nat) : List (List Nat × List Nat) :=
  let w := strTrim (seg.takeWhile (fun c => !(c == 40) && !(c == 58)))
  let it := strTrim seg
  if w ≠ [] ∧ it ≠ [] then [(w, it)] else []

/-- Comma-splitting loop of the fallback branch (r36s_viewer.c:139-163):
process a segment at each ',' (byte 44), and the trailing segment when it is
non-empty (the C test p != seg). -/
def commaItemsAux : Nat → List Nat → List (List Nat × List Nat)
  | 0, _ => []
  | fuel + 1, l =>
    let seg := l.takeWhile (fun c => !(c == 44))
    match l.dropWhile (fun c => !(c == 44)) with
    | [] => if seg = [] then [] else segItem seg
    | _ :: tail => segItem seg ++ commaItemsAux fuel tail

/-- The comma-separated fallback branch of extract_words_and_items_from_pairs. -/
def commaItems (l : List Nat) : List (List Nat × List Nat) :=
  commaItemsAux l.length l

/-- extract_words_and_items_from_pairs (r36s_viewer.c:112-166): NULL or empty
input yields nothing; a first byte '[' (91) selects the bracketed-list branch,
any other first byte the comma-separated branch. -/
def extract_words_and_items_from_pairs (l : List Nat) : List (List Nat × List Nat) :=
  if l = [] then []
  else if l.head? = some 91 then scanQuotedItems l
  else commaItems l

/-! ### extract_words_from_pairs (r36s_viewer.c:57-109), the words-only variant
used to build the word layout.  Same scanning structure; only the word is kept
and it is emitted whenever it alone is non-empty. -/

/-- Scanning loop of the bracketed branch of extract_words_from_pairs
(r36s_viewer.c:62-87). -/
def scanQuotedWordsAux : Nat → List Nat → List (List Nat)
  | 0, _ => []
  | _, [] => []
  | fuel + 1, c :: rest =>
    if c = 34 then
      let content := rest.takeWhile (fun x => !(x == 34))
      match rest.dropWhile (fun x => !(x == 34)) with
      | [] => []
      | _ :: tail =>
        (let w := strTrim (bracketWord content)
         if w ≠ [] then [w] else []) ++ scanQuotedWordsAux fuel tail
    else scanQuotedWordsAux fuel rest

/-- Word emitted for one comma-separated segment of extract_words_from_pairs
(r36s_viewer.c:92-97). -/
def segWord (seg : List Nat) : List (List Nat) :=
  let w := strTrim (seg.takeWhile (fun c => !(c == 40) && !(c == 58)))
  if w ≠ [] then [w] else []

/-- Comma-splitting loop of extract_words_from_pairs (r36s_viewer.c:89-107). -/
def commaWordsAux : Nat → List Nat → List (List Nat)
  | 0, _ => []
  | fuel + 1, l =>
    let seg := l.takeWhile (fun c => !(c == 44))
    match l.dropWhile (fun c => !(c == 44)) with
    | [] => if seg = [] then [] else segWord seg
    | _ :: tail => segWord seg ++ commaWordsAux fuel tail

/-- extract_words_from_pairs (r36s_viewer.c:57-109).  The argument is the
pairs pointer of the record: none models a NULL pointer (both NULL and empty
input yield no words). -/
def extract_words_from_pairs (pairs : Option (List Nat)) : List (List Nat) :=
  match pairs with
  | none => []
  | some l =>
    if l = [] then []
    else if l.head? = some 91 then scanQuotedWordsAux l.length l
    else commaWordsAux l.length l

/-! ### CodepointIndexer: the per-codepoint layout of
recreate_text_with_layout (text.c:188-208) and the byte index of
build_word_layout (r36s_viewer.c:175-185). -/

/-- Per-codepoint measurement loop of recreate_text_with_layout
(text.c:192-208): for each UTF-8 codepoint (classified by its lead byte), ask
the shaper for the width of that codepoint rendered alone, record the running
sum of prior widths as its x offset, and advance.  The shaper collaborator is
the argument m (TTF_SizeUTF8 on the one-codepoint buffer); entries are
(x_offset, width) pairs. -/
def buildLayoutAux (m : List Nat → Int) : Nat → List Nat → Int → List (Int × Int)
  | 0, _, _ => []
  | _, [], _ => []
  | cpLeft + 1, c :: rest, accum =>
    let len := utf8Adv c
    let w := m ((c :: rest).take len)
    (accum, w) :: buildLayoutAux m cpLeft ((c :: rest).drop len) (accum + w)

/-- The (x_offset, width) table recreate_text_with_layout builds for a string,
given the shaper m. -/
def recreate_layout (s : List Nat) (m : List Nat → Int) : List (Int × Int) :=
  buildLayoutAux m (utf8_count_codepoints s) s 0

/-- Byte positions of codepoint starts, as computed at the top of
build_word_layout (r36s_viewer.c:178-185): record byte_idx, then advance by
the lead-byte classification, while bytes remain and fewer than total_cp
entries were written. -/
def cpByteIndexAux (s : List Nat) : Nat → Nat → List Nat
  | 0, _ => []
  | cpLeft + 1, byteIdx =>
    if byteIdx < s.length then
      byteIdx :: cpByteIndexAux s cpLeft (byteIdx + utf8Adv (s.getD byteIdx 0))
    else []

/-- The cp_byte_index array of build_word_layout.  When totalCp exceeds the
number of codepoints actually present the C array has uninitialized entries at
the tail; this embedding produces only the written entries. -/
def cpByteIndex (s : List Nat) (totalCp : Nat) : List Nat :=
  cpByteIndexAux s totalCp 0

/-- byte_to_cp_linear (r36s_viewer.c:168-170): the last index i whose recorded
byte offset is ≤ bidx (linear scan: i starts at 0 and advances while the next
entry is still ≤ bidx). -/
def byteToCpAux : List Nat → Nat → Nat → Nat
  | _ :: b :: rest, bidx, i =>
    if b ≤ bidx then byteToCpAux (b :: rest) bidx (i + 1) else i
  | _, _, i => i

/-- byte_to_cp_linear over the written entries of the byte index. -/
def byte_to_cp_linear (cpByte : List Nat) (bidx : Nat) : Nat :=
  byteToCpAux cpByte bidx 0

/-! ### WordLayoutBuilder: build_word_layout (r36s_viewer.c:172-206). -/

/-- One step of strstr: the smallest j ≥ i at which needle occurs in hay, if
any; fuel counts the remaining scan positions. -/
def strstrAux (hay needle : List Nat) : Nat → Nat → Option Nat
  | 0, _ => none
  | fuel + 1, i =>
    if needle.isPrefixOf (hay.drop i) then some i
    else strstrAux hay needle fuel (i + 1)

/-- strstr(hay + i, needle) as a byte offset into hay. -/
def strstrFrom (hay needle : List Nat) (i : Nat) : Option Nat :=
  strstrAux hay needle (hay.length + 1 - i) i

/-- The occurrence loop of build_word_layout (r36s_viewer.c:191-202): strstr
from the current position, and resume at the match offset plus the needle's
byte length (pos += needle_len), so matches of one word never overlap. -/
def matchOffsetsAux (hay needle : List Nat) : Nat → Nat → List Nat
  | 0, _ => []
  | fuel + 1, i =>
    match strstrFrom hay needle i with
    | none => []
    | some j => j :: matchOffsetsAux hay needle fuel (j + needle.length)

/-- All match byte offsets of needle in hay, in text order. -/
def matchOffsets (hay needle : List Nat) : List Nat :=
  matchOffsetsAux hay needle (hay.length + 1) 0

/-- WordSpan (r36s_viewer.c:26-31): codepoint range plus pixel geometry. -/
structure WordSpan where
  start_cp : Nat
  end_cp : Nat
  x : Int
  w : Int
deriving DecidableEq

/-- SubtitleLayout (text.h): per-codepoint x offsets and widths; count is the
length of the x_offsets array. -/
structure SubtitleLayout where
  x_offsets : List Int
  widths : List Int
deriving DecidableEq

def SubtitleLayout.count (l : SubtitleLayout) : Nat := l.x_offsets.length

/-- build_word_layout (r36s_viewer.c:172-206): for each non-empty word in
order, find its non-overlapping occurrences, convert the byte offset to a
codepoint index, clamp end_cp to the total, and keep the span when its pixel
width is positive. -/
def build_word_layout (zht : List Nat) (layout : SubtitleLayout)
    (words : List (List Nat)) : List WordSpan :=
  if zht = [] ∨ layout.count = 0 ∨ words = [] then []
  else
    let totalCp := layout.count
    let cpByte := cpByteIndex zht totalCp
    (words.map (fun needle =>
      if needle = [] then []
      else (matchOffsets zht needle).filterMap (fun off =>
        let startCp := byte_to_cp_linear cpByte off
        let lenCp := utf8_count_codepoints needle
        let endCp := min (startCp + lenCp) totalCp
        let x := layout.x_offsets.getD startCp 0
        let endX := if 1 ≤ endCp then
            layout.x_offsets.getD (endCp - 1) 0 + layout.widths.getD (endCp - 1) 0
          else x
        let wpx := endX - x
        if wpx ≤ 0 then none
        else some ⟨startCp, endCp, x, wpx⟩))).flatten

/-- refresh_word_layout_for_time (r36s_viewer.c:239-272): guard on a non-empty
subtitle and non-empty layout, extract the words from the record's pairs text
(the find_entry_by_time result is modelled by the pairs argument), and build
the word layout.  This path has no per-codepoint fallback. -/
def refresh_word_layout_for_time (msg : List Nat) (layout : SubtitleLayout)
    (pairs : Option (List Nat)) : List WordSpan :=
  if msg = [] ∨ layout.count = 0 then []
  else build_word_layout msg layout (extract_words_from_pairs pairs)

/-- refresh_word_layout_for_index (r36s_viewer.c:274-315): same construction,
followed by the fallback that synthesizes one span per codepoint (start = i,
end = i + 1, with that codepoint's x offset and width) when no span was
produced and the layout is non-empty. -/
def refresh_word_layout_for_index (msg : List Nat) (layout : SubtitleLayout)
    (pairs : Option (List Nat)) : List WordSpan :=
  if msg = [] ∨ layout.count = 0 then []
  else
    let wl := build_word_layout msg layout (extract_words_from_pairs pairs)
    if wl.length = 0 ∧ 0 < layout.count then
      (List.range layout.count).map (fun i =>
        ⟨i, i + 1, layout.x_offsets.getD i 0, layout.widths.getD i 0⟩)
    else wl

/-! ### HoverResolver: update_hover_info_by_time (r36s_viewer.c:335-397). -/

/-- Advance from byte position i over up to cpLeft codepoints, stopping at the
end of the string, as the two scan loops of utf8_substr_by_cp do. -/
def cpAdvance (s : List Nat) : Nat → Nat → Nat
  | i, 0 => i
  | i, k + 1 =>
    if i < s.length then cpAdvance s (i + utf8Adv (s.getD i 0)) k else i

/-- utf8_substr_by_cp (r36s_viewer.c:317-333): the byte range covering
codepoints [start_cp, end_cp); none models the NULL result (empty range or
empty extracted text). -/
def utf8_substr_by_cp (s : List Nat) (startCp endCp : Nat) : Option (List Nat) :=
  if endCp ≤ startCp then none
  else
    let startByte := cpAdvance s 0 startCp
    let endByte := cpAdvance s startByte (endCp - startCp)
    if endByte ≤ startByte then none
    else some ((s.take endByte).drop startByte)

/-- The fixed sentinel "N/A" (r36s_viewer.c:370). -/
def na_bytes : List Nat := utf8 "N/A"

/-- The normalization step of update_hover_info_by_time
(r36s_viewer.c:372-387): if the text contains '(' (strchr finds the first
one), that '(' is not the first byte, and the byte before it is not ' ', then
one space is inserted before it; otherwise the text is unchanged. -/
def insert_space_before_paren (t : List Nat) : List Nat :=
  let pre := t.takeWhile (fun c => !(c == 40))
  let rest := t.dropWhile (fun c => !(c == 40))
  if rest ≠ [] ∧ pre ≠ [] ∧ pre.getLast? ≠ some 32 then pre ++ 32 :: rest else t

/-- The display-text selection of update_hover_info_by_time
(r36s_viewer.c:342-371), before normalization.  none models the early return
(hover index out of range: no hover label, the "not available" outcome).
pairsText models the pairs_text of the record found by time (none = NULL);
pairCount is the word count the caller passed (pair_words is non-NULL exactly
when it is positive). -/
def hover_select_text (msg : List Nat) (spans : List WordSpan) (hoverIndex : Int)
    (pairsText : Option (List Nat)) (pairCount : Nat) : Option (List Nat) :=
  if hoverIndex < 0 ∨ (spans.length : Int) ≤ hoverIndex then none
  else
    let span := spans.getD hoverIndex.toNat ⟨0, 0, 0, 0⟩
    let hoverWord := utf8_substr_by_cp msg span.start_cp span.end_cp
    let matched : Option (List Nat) :=
      match hoverWord with
      | none => none
      | some w =>
        if 0 < pairCount then
          match pairsText with
          | none => none
          | some pf =>
            if pf ≠ [] then
              ((extract_words_and_items_from_pairs pf).find?
                (fun wi => wi.1 == w)).map Prod.snd
            else none
        else none
    match matched with
    | some d => some d
    | none =>
      match pairsText with
      | some pf => if pf ≠ [] then some pf else some na_bytes
      | none => some na_bytes

/-- update_hover_info_by_time (r36s_viewer.c:335-397): the displayed hover
text is the selected text after normalization; none when no label is shown. -/
def update_hover_info_by_time (msg : List Nat) (spans : List WordSpan)
    (hoverIndex : Int) (pairsText : Option (List Nat)) (pairCount : Nat) :
    Option (List Nat) :=
  (hover_select_text msg spans hoverIndex pairsText pairCount).map
    insert_space_before_paren

/-! ### BaseStore: load_base_file_for_directory (base.c:84-164). -/

/-- strip_trailing_newline (base.c:18-25). -/
def strip_trailing_newline (l : List Nat) : List Nat :=
  (l.reverse.dropWhile (fun c => c == 10 || c == 13)).reverse

/-- The strtok_r(line, "\t") tokenization (base.c:136-142): runs of
non-delimiter bytes; empty fields between consecutive tabs produce no token. -/
def strtokFieldsAux : Nat → List Nat → List (List Nat)
  | 0, _ => []
  | fuel + 1, l =>
    let l1 := l.dropWhile (fun c => c == 9)
    if l1 = [] then []
    else
      l1.takeWhile (fun c => !(c == 9)) ::
        strtokFieldsAux fuel (l1.dropWhile (fun c => !(c == 9)))

/-- All tab-separated tokens of a line, in order. -/
def strtok_fields (l : List Nat) : List (List Nat) :=
  strtokFieldsAux l.length l

/-- strtol(field0, &endptr, 10) (base.c:144-146): skip isspace bytes, accept
one optional sign, then decimal digits; none models endptr == field0 (no digit
consumed).  Overflow clamping of long is irrelevant in the accepted range. -/
def strtol10 (l : List Nat) : Option Int :=
  let l1 := l.dropWhile (fun c =>
    c == 32 || c == 9 || c == 10 || c == 11 || c == 12 || c == 13)
  let signAndRest : Int × List Nat :=
    match l1 with
    | 43 :: r => (1, r)
    | 45 :: r => (-1, r)
    | _ => (1, l1)
  let digits := signAndRest.2.takeWhile (fun c => 48 ≤ c && c ≤ 57)
  if digits = [] then none
  else some (signAndRest.1 *
    digits.foldl (fun acc d => acc * 10 + ((d : Int) - 48)) 0)

/-- One line of the base table parsed as load_base_file_for_directory does
(base.c:133-157): strip the newline, skip empty lines, tokenize on tabs,
require field0 and field2, require field0 to parse as an integer in
(0, 1000000], and keep the optional field3 (pairs) and field4 (pt). -/
def parse_base_line (raw : List Nat) :
    Option (Nat × List Nat × Option (List Nat) × Option (List Nat)) :=
  let line := strip_trailing_newline raw
  if line = [] then none
  else
    match (strtok_fields line).get? 0, (strtok_fields line).get? 2 with
    | some field0, some field2 =>
      match strtol10 field0 with
      | none => none
      | some idx =>
        if idx ≤ 0 ∨ 1000000 < idx then none
        else some (idx.toNat, field2, (strtok_fields line).get? 3,
          (strtok_fields line).get? 4)
    | _, _ => none

/-- The three per-index legacy arrays of BaseData (base.h), as partial maps. -/
structure BaseData where
  zht : Nat → Option (List Nat)
  pairs : Nat → Option (List Nat)
  pt : Nat → Option (List Nat)

def emptyBase : BaseData :=
  ⟨fun _ => none, fun _ => none, fun _ => none⟩

/-- The effect of one table line on the store (base.c:147-157): a valid line
always overwrites zht at its index; pairs and pt are overwritten only when the
line carries field3 resp. field4. -/
def apply_base_line (bd : BaseData) (raw : List Nat) : BaseData :=
  match parse_base_line raw with
  | none => bd
  | some (idx, f2, f3, f4) =>
    { zht := fun j => if j = idx then some f2 else bd.zht j
      pairs := fun j => if j = idx then
          (match f3 with
           | some v => some v
           | none => bd.pairs j)
        else bd.pairs j
      pt := fun j => if j = idx then
          (match f4 with
           | some v => some v
           | none => bd.pt j)
        else bd.pt j }

/-- The load loop of load_base_file_for_directory over the file's lines
(base.c:133-158). -/
def load_base_lines (lines : List (List Nat)) : BaseData :=
  lines.foldl apply_base_line emptyBase

/-! ### List helpers -/

theorem takeWhile_append_all {α : Type} (p : α → Bool) (pre l : List α)
    (h : ∀ c ∈ pre, p c = true) :
    (pre ++ l).takeWhile p = pre ++ l.takeWhile p := by
  induction pre with
  | nil => simp
  | cons a t ih =>
    have ha : p a = true := h a (by simp)
    simp only [List.cons_append, List.takeWhile_cons_of_pos ha]
    rw [ih (fun c hc => h c (by simp [hc]))]

theorem dropWhile_append_all {α : Type} (p : α → Bool) (pre l : List α)
    (h : ∀ c ∈ pre, p c = true) :
    (pre ++ l).dropWhile p = l.dropWhile p := by
  induction pre with
  | nil => simp
  | cons a t ih =>
    have ha : p a = true := h a (by simp)
    simp only [List.cons_append, List.dropWhile_cons_of_pos ha]
    exact ih (fun c hc => h c (by simp [hc]))

theorem takeWhile_eq_self_all {α : Type} (p : α → Bool) (l : List α)
    (h : ∀ c ∈ l, p c = true) : l.takeWhile p = l := by
  have := takeWhile_append_all p l [] h
  simpa using this

theorem dropWhile_length_le {α : Type} (p : α → Bool) (l : List α) :
    (l.dropWhile p).length ≤ l.length := by
  induction l with
  | nil => simp
  | cons a t ih =>
    by_cases h : p a = true
    · rw [List.dropWhile_cons_of_pos h]; exact Nat.le_succ_of_le ih
    · rw [List.dropWhile_cons_of_neg h]

/-! ### The bracketed-scan characterization (claims C1, C2) -/

theorem scanQuotedItemsAux_irrel : ∀ (f1 : Nat) (l : List Nat) (f2 : Nat),
    l.length ≤ f1 → l.length ≤ f2 →
    scanQuotedItemsAux f1 l = scanQuotedItemsAux f2 l := by
  intro f1
  induction f1 with
  | zero =>
    intro l f2 h1 _
    have : l = [] := List.length_eq_zero.mp (Nat.le_zero.mp h1)
    subst this
    cases f2 <;> rfl
  | succ f ih =>
    intro l f2 h1 h2
    cases l with
    | nil => cases f2 <;> rfl
    | cons c rest =>
      cases f2 with
      | zero => simp at h2
      | succ g =>
        simp only [List.length_cons, Nat.succ_le_succ_iff] at h1 h2
        simp only [scanQuotedItemsAux]
        by_cases hc : c = 34
        · simp only [if_pos hc]
          cases hdrop : rest.dropWhile (fun x => !(x == 34)) with
          | nil => rfl
          | cons b tail =>
            have htl : tail.length < rest.length + 1 := by
              have h3 := dropWhile_length_le (fun x : Nat => !(x == 34)) rest
              rw [hdrop] at h3
              simp only [List.length_cons] at h3
              omega
            simp only [ih tail g (by omega) (by omega)]
        · simp only [if_neg hc]
          exact ih rest g h1 h2

theorem scanQuotedItems_cons_ne {c : Nat} {l : List Nat} (h : c ≠ 34) :
    scanQuotedItems (c :: l) = scanQuotedItems l := by
  unfold scanQuotedItems
  simp only [List.length_cons, scanQuotedItemsAux, if_neg h]

theorem scanQuotedItems_append_pre {pre l : List Nat} (h : ∀ c ∈ pre, c ≠ 34) :
    scanQuotedItems (pre ++ l) = scanQuotedItems l := by
  induction pre with
  | nil => simp
  | cons a t ih =>
    rw [List.cons_append, scanQuotedItems_cons_ne (h a (by simp))]
    exact ih (fun c hc => h c (by simp [hc]))

theorem scanQuotedItems_quote {seg tail : List Nat} (h : ∀ c ∈ seg, c ≠ 34) :
    scanQuotedItems (34 :: (seg ++ 34 :: tail)) =
      bracketEmit seg ++ scanQuotedItems tail := by
  have hall : ∀ c ∈ seg, (fun x : Nat => !(x == 34)) c = true := by
    intro c hc; simp [h c hc]
  have htake : (seg ++ 34 :: tail).takeWhile (fun x => !(x == 34)) = seg := by
    rw [takeWhile_append_all _ _ _ hall]
    simp [List.takeWhile_cons_of_neg]
  have hdrop : (seg ++ 34 :: tail).dropWhile (fun x => !(x == 34)) = 34 :: tail := by
    rw [dropWhile_append_all _ _ _ hall]
    simp [List.dropWhile_cons_of_neg]
  unfold scanQuotedItems
  simp only [List.length_cons, scanQuotedItemsAux, if_pos rfl, htake, hdrop]
  exact congrArg (fun x => bracketEmit seg ++ x)
    (scanQuotedItemsAux_irrel (seg ++ 34 :: tail).length tail tail.length
      (by simp [List.length_append]; omega) (le_refl _))

/-! ### The comma-split characterization (claim C3) -/

theorem commaItemsAux_irrel : ∀ (f1 : Nat) (l : List Nat) (f2 : Nat),
    l.length ≤ f1 → l.length ≤ f2 →
    commaItemsAux f1 l = commaItemsAux f2 l := by
  intro f1
  induction f1 with
  | zero =>
    intro l f2 h1 _
    have : l = [] := List.length_eq_zero.mp (Nat.le_zero.mp h1)
    subst this
    cases f2 <;> rfl
  | succ f ih =>
    intro l f2 h1 h2
    cases f2 with
    | zero =>
      have : l = [] := List.length_eq_zero.mp (Nat.le_zero.mp h2)
      subst this; rfl
    | succ g =>
      simp only [commaItemsAux]
      cases hdrop : l.dropWhile (fun c => !(c == 44)) with
      | nil => rfl
      | cons b tail =>
        have htl : tail.length < l.length := by
          have h3 := dropWhile_length_le (fun c : Nat => !(c == 44)) l
          rw [hdrop] at h3
          simp only [List.length_cons] at h3
          omega
        simp only [ih tail g (by omega) (by omega)]

theorem commaItems_append {seg tail : List Nat} (h : ∀ c ∈ seg, c ≠ 44) :
    commaItems (seg ++ 44 :: tail) = segItem seg ++ commaItems tail := by
  have hall : ∀ c ∈ seg, (fun x : Nat => !(x == 44)) c = true := by
    intro c hc; simp [h c hc]
  have htake : (seg ++ 44 :: tail).takeWhile (fun x => !(x == 44)) = seg := by
    rw [takeWhile_append_all _ _ _ hall]
    simp [List.takeWhile_cons_of_neg]
  have hdrop : (seg ++ 44 :: tail).dropWhile (fun x => !(x == 44)) = 44 :: tail := by
    rw [dropWhile_append_all _ _ _ hall]
    simp [List.dropWhile_cons_of_neg]
  have hlen : (seg ++ 44 :: tail).length = seg.length + tail.length + 1 := by
    simp [List.length_append]; omega
  unfold commaItems
  rw [hlen]
  simp only [commaItemsAux, htake, hdrop]
  rw [commaItemsAux_irrel (seg.length + tail.length) tail tail.length
    (by omega) (le_refl _)]

theorem commaItems_no_comma {seg : List Nat} (h : ∀ c ∈ seg, c ≠ 44)
    (hne : seg ≠ []) : commaItems seg = segItem seg := by
  have hall : ∀ c ∈ seg, (fun x : Nat => !(x == 44)) c = true := by
    intro c hc; simp [h c hc]
  have htake : seg.takeWhile (fun x => !(x == 44)) = seg :=
    takeWhile_eq_self_all _ _ hall
  have hdrop : seg.dropWhile (fun x => !(x == 44)) = [] :=
    List.dropWhile_eq_nil_iff.mpr hall
  cases seg with
  | nil => exact absurd rfl hne
  | cons a t =>
    unfold commaItems
    simp only [List.length_cons, commaItemsAux, htake, hdrop]
    simp

/-! ### Properties of the substring search (claim C4) -/

theorem strstrAux_some {hay needle : List Nat} :
    ∀ {fuel i j : Nat}, strstrAux hay needle fuel i = some j →
      i ≤ j ∧ needle.isPrefixOf (hay.drop j) = true := by
  intro fuel
  induction fuel with
  | zero => intro i j h; simp [strstrAux] at h
  | succ f ih =>
    intro i j h
    simp only [strstrAux] at h
    by_cases hp : needle.isPrefixOf (hay.drop i) = true
    · rw [if_pos hp] at h
      cases h
      exact ⟨le_refl _, hp⟩
    · rw [if_neg hp] at h
      obtain ⟨h1, h2⟩ := ih h
      exact ⟨by omega, h2⟩

theorem strstrFrom_some {hay needle : List Nat} {i j : Nat}
    (h : strstrFrom hay needle i = some j) :
    i ≤ j ∧ needle.isPrefixOf (hay.drop j) = true :=
  strstrAux_some h

theorem matchOffsetsAux_mem {hay needle : List Nat} :
    ∀ {fuel i o : Nat}, o ∈ matchOffsetsAux hay needle fuel i →
      i ≤ o ∧ needle.isPrefixOf (hay.drop o) = true := by
  intro fuel
  induction fuel with
  | zero => intro i o h; simp [matchOffsetsAux] at h
  | succ f ih =>
    intro i o h
    simp only [matchOffsetsAux] at h
    cases hs : strstrFrom hay needle i with
    | none => rw [hs] at h; simp at h
    | some j =>
      rw [hs] at h
      simp only [List.mem_cons] at h
      rcases h with rfl | h
      · exact strstrFrom_some hs
      · have h1 := strstrFrom_some hs
        have h2 := ih h
        exact ⟨by omega, h2.2⟩

theorem matchOffsetsAux_chain {hay needle : List Nat} :
    ∀ (fuel i : Nat), List.Chain' (fun a b => a + needle.length ≤ b)
      (matchOffsetsAux hay needle fuel i) := by
  intro fuel
  induction fuel with
  | zero => intro i; simp [matchOffsetsAux]
  | succ f ih =>
    intro i
    simp only [matchOffsetsAux]
    cases hs : strstrFrom hay needle i with
    | none => simp
    | some j =>
      rw [List.chain'_cons']
      refine ⟨?_, ih _⟩
      intro y hy
      exact (matchOffsetsAux_mem (List.mem_of_mem_head? hy)).1

/-! ### Properties of the per-codepoint layout and byte index (claim C8) -/

theorem buildLayoutAux_head {m : List Nat → Int} :
    ∀ {cp : Nat} {s : List Nat} {accum : Int} {p : Int × Int},
      (buildLayoutAux m cp s accum).head? = some p → p.1 = accum := by
  intro cp s accum p h
  cases cp with
  | zero => simp [buildLayoutAux] at h
  | succ n =>
    cases s with
    | nil => simp [buildLayoutAux] at h
    | cons c rest =>
      simp only [buildLayoutAux, List.head?_cons, Option.some.injEq] at h
      rw [← h]

theorem buildLayoutAux_chain {m : List Nat → Int} :
    ∀ (cp : Nat) (s : List Nat) (accum : Int),
      List.Chain' (fun p q : Int × Int => q.1 = p.1 + p.2)
        (buildLayoutAux m cp s accum) := by
  intro cp
  induction cp with
  | zero => intro s accum; simp [buildLayoutAux]
  | succ n ih =>
    intro s accum
    cases s with
    | nil => simp [buildLayoutAux]
    | cons c rest =>
      simp only [buildLayoutAux]
      rw [List.chain'_cons']
      refine ⟨?_, ih _ _⟩
      intro q hq
      exact buildLayoutAux_head hq

theorem cpByteIndexAux_head {s : List Nat} :
    ∀ {cp i b : Nat}, (cpByteIndexAux s cp i).head? = some b → b = i := by
  intro cp i b h
  cases cp with
  | zero => simp [cpByteIndexAux] at h
  | succ n =>
    simp only [cpByteIndexAux] at h
    by_cases hi : i < s.length
    · rw [if_pos hi] at h
      simp only [List.head?_cons, Option.some.injEq] at h
      omega
    · rw [if_neg hi] at h; simp at h

theorem cpByteIndexAux_chain {s : List Nat} :
    ∀ (cp i : Nat), List.Chain' (fun a b => b = a + utf8Adv (s.getD a 0))
      (cpByteIndexAux s cp i) := by
  intro cp
  induction cp with
  | zero => intro i; simp [cpByteIndexAux]
  | succ n ih =>
    intro i
    simp only [cpByteIndexAux]
    by_cases hi : i < s.length
    · rw [if_pos hi, List.chain'_cons']
      refine ⟨?_, ih _⟩
      intro y hy
      exact cpByteIndexAux_head hy
    · rw [if_neg hi]; simp

theorem chain'_getD {α : Type} {R : α → α → Prop} {l : List α} (d : α)
    (h : List.Chain' R l) (i : Nat) (hi : i + 1 < l.length) :
    R (l.getD i d) (l.getD (i + 1) d) := by
  have hg := List.chain'_iff_get.mp h i (by omega)
  rw [List.getD_eq_getElem _ _ (by omega : i < l.length),
      List.getD_eq_getElem _ _ (by omega : i + 1 < l.length)]
  simpa [List.get_eq_getElem] using hg

theorem utf8Adv_bounds (c : Nat) : 1 ≤ utf8Adv c ∧ utf8Adv c ≤ 4 := by
  unfold utf8Adv
  by_cases h1 : (c &&& 224 == 192) = true
  · simp [h1]
  · by_cases h2 : (c &&& 240 == 224) = true
    · simp [h1, h2]
    · by_cases h3 : (c &&& 248 == 240) = true
      · simp [h1, h2, h3]
      · simp [h1, h2, h3]

/-- A concrete four-codepoint layout (x offsets 0,10,20,30 and widths 10 each)
used by the worked examples on the subtitle 你好世界. -/
def demoLayout : SubtitleLayout := ⟨[0, 10, 20, 30], [10, 10, 10, 10]⟩

/-! ### The claims -/

/-- Claim C1: for every bracketed-list pairs input (leading bracket byte) the
parser scans the quoted segments, and each complete quoted segment yields one
PairItem whose word is the trimmed prefix before the first parenthesis byte,
else before the first colon byte, else the whole segment, with full_text the
trimmed whole segment, emitted only when both are non-empty (bracketEmit /
bracketWord); and the P3 example input yields the two expected PairItems in
order. -/
theorem claim_C1 :
    (∀ rest : List Nat, extract_words_and_items_from_pairs (91 :: rest) =
      scanQuotedItems (91 :: rest)) ∧
    (∀ pre seg tail : List Nat, (∀ c ∈ pre, c ≠ 34) → (∀ c ∈ seg, c ≠ 34) →
      scanQuotedItems (pre ++ 34 :: (seg ++ 34 :: tail)) =
        bracketEmit seg ++ scanQuotedItems tail) ∧
    extract_words_and_items_from_pairs
        (utf8 "[\"你好(nǐ hǎo): hello\", \"再见: bye\"]") =
      [(utf8 "你好", utf8 "你好(nǐ hǎo): hello"),
       (utf8 "再见", utf8 "再见: bye")] := by
  refine ⟨?_, ?_, by decide⟩
  · intro rest
    simp [extract_words_and_items_from_pairs]
  · intro pre seg tail hpre hseg
    rw [scanQuotedItems_append_pre hpre, scanQuotedItems_quote hseg]

/-- Witness for claim C1: the quoted-segment equation at a concrete input. -/
theorem claim_C1_witness :
    scanQuotedItems (utf8 "xy" ++ 34 :: (utf8 "a: b" ++ 34 :: utf8 "z")) =
      bracketEmit (utf8 "a: b") ++ scanQuotedItems (utf8 "z") :=
  claim_C1.2.1 (utf8 "xy") (utf8 "a: b") (utf8 "z") (by decide) (by decide)

/-- Claim C2 counterexample: two inputs differing only in a leading space
before the bracket parse under different encodings and produce different
PairItems, contradicting the claim that the first non-whitespace character
selects the encoding. -/
theorem claim_C2_cex :
    extract_words_and_items_from_pairs (utf8 " [\"a: b\"]") =
      [(utf8 "[\"a", utf8 "[\"a: b\"]")] ∧
    extract_words_and_items_from_pairs (utf8 "[\"a: b\"]") =
      [(utf8 "a", utf8 "a: b")] ∧
    extract_words_and_items_from_pairs (utf8 " [\"a: b\"]") ≠
      extract_words_and_items_from_pairs (utf8 "[\"a: b\"]") := by
  exact ⟨by decide, by decide, by decide⟩

/-- Claim C2 (amended): Parse selects the encoding by inspecting the first
byte of the input: a leading bracket selects the bracketed-list branch, any
other first byte (whitespace included) selects the comma-separated fallback,
so leading whitespace before the bracket routes the input to the fallback. -/
theorem claim_C2 :
    (∀ rest : List Nat, extract_words_and_items_from_pairs (91 :: rest) =
      scanQuotedItems (91 :: rest)) ∧
    (∀ (c : Nat) (rest : List Nat), c ≠ 91 →
      extract_words_and_items_from_pairs (c :: rest) = commaItems (c :: rest)) ∧
    (∀ rest : List Nat, extract_words_and_items_from_pairs (32 :: 91 :: rest) =
      commaItems (32 :: 91 :: rest)) := by
  refine ⟨?_, ?_, ?_⟩
  · intro rest
    simp [extract_words_and_items_from_pairs]
  · intro c rest hc
    simp [extract_words_and_items_from_pairs, hc]
  · intro rest
    simp [extract_words_and_items_from_pairs]

/-- Witness for claim C2: the fallback selection at a concrete first byte. -/
theorem claim_C2_witness :
    extract_words_and_items_from_pairs (120 :: utf8 ": y") =
      commaItems (120 :: utf8 ": y") :=
  claim_C2.2.1 120 (utf8 ": y") (by decide)

/-- Claim C3 counterexample: in the comma-separated fallback the segment
"x: y(z)" contains a parenthesis, so the claim predicts the word "x: y"
(trimmed prefix before the parenthesis), but the code stops the word scan at
the first colon and produces the word "x". -/
theorem claim_C3_cex :
    extract_words_and_items_from_pairs (utf8 "x: y(z)") =
      [(utf8 "x", utf8 "x: y(z)")] ∧
    strTrim ((utf8 "x: y(z)").takeWhile (fun c => !(c == 40))) = utf8 "x: y" ∧
    utf8 "x" ≠ utf8 "x: y" := by
  exact ⟨by decide, by decide, by decide⟩

/-- Claim C3 (amended): in the comma-separated fallback, for every segment
(split on the comma byte, including a non-empty trailing segment) the word is
the trimmed prefix before the first occurrence of either the parenthesis byte
or the colon byte, whichever comes first, else the trimmed whole segment, and
full_text is the trimmed whole segment; both must be non-empty (segItem). -/
theorem claim_C3 :
    (∀ seg tail : List Nat, (∀ c ∈ seg, c ≠ 44) →
      commaItems (seg ++ 44 :: tail) = segItem seg ++ commaItems tail) ∧
    (∀ seg : List Nat, (∀ c ∈ seg, c ≠ 44) → seg ≠ [] →
      commaItems seg = segItem seg) ∧
    extract_words_and_items_from_pairs (utf8 "x: y(z), 你好(ni hao): hi") =
      [(utf8 "x", utf8 "x: y(z)"), (utf8 "你好", utf8 "你好(ni hao): hi")] := by
  refine ⟨?_, ?_, by decide⟩
  · intro seg tail h
    exact commaItems_append h
  · intro seg h hne
    exact commaItems_no_comma h hne

/-- Witness for claim C3: the segment-split equation at a concrete input. -/
theorem claim_C3_witness :
    commaItems (utf8 "a: b" ++ 44 :: utf8 " c: d") =
      segItem (utf8 "a: b") ++ commaItems (utf8 " c: d") :=
  claim_C3.1 (utf8 "a: b") (utf8 " c: d") (by decide)

/-- Claim C4: the word search is a literal byte-substring search — every
reported offset is a genuine occurrence of the needle — the search resumes
strictly after each match's byte range (consecutive offsets differ by at least
the needle's byte length), spans are grouped by source word in word order (the
construction maps over the word list), and on the subtitle 你好世界 with the
single word 世界 exactly one span with start_cp 2 and end_cp 4 is produced. -/
theorem claim_C4 :
    (∀ hay needle : List Nat,
      List.Chain' (fun a b => a + needle.length ≤ b) (matchOffsets hay needle)) ∧
    (∀ hay needle : List Nat, ∀ o ∈ matchOffsets hay needle,
      needle.isPrefixOf (hay.drop o) = true) ∧
    build_word_layout (utf8 "你好世界") demoLayout [utf8 "世界"] =
      [⟨2, 4, 20, 20⟩] := by
  refine ⟨?_, ?_, by decide⟩
  · intro hay needle
    exact matchOffsetsAux_chain _ _
  · intro hay needle o ho
    exact (matchOffsetsAux_mem ho).2

/-- Witness for claim C4: the occurrence property at a concrete offset. -/
theorem claim_C4_witness :
    (utf8 "世界").isPrefixOf ((utf8 "你好世界").drop 6) = true :=
  claim_C4.2.1 (utf8 "你好世界") (utf8 "世界") 6 (by decide)

/-- Claim C5, evaluated at the failing input: with the non-empty subtitle
你好世界, a four-codepoint layout, and no pairs text (so the word list is
empty and span construction yields zero spans), the index-based refresh
performs the documented per-codepoint fallback, but the time-based refresh —
the only one the main loop invokes — returns zero spans and never synthesizes
the per-codepoint spans. -/
theorem claim_C5_eval :
    refresh_word_layout_for_index (utf8 "你好世界") demoLayout none =
      [⟨0, 1, 0, 10⟩, ⟨1, 2, 10, 10⟩, ⟨2, 3, 20, 10⟩, ⟨3, 4, 30, 10⟩] ∧
    refresh_word_layout_for_time (utf8 "你好世界") demoLayout none = [] := by
  exact ⟨by decide, by decide⟩

/-- Claim C6: the hover resolver yields the not-available outcome (no hover
label, modelled as none) when the selected index is outside [0, len(spans));
otherwise it extracts the hovered codepoint range and returns the full_text of
the first PairItem whose word equals it byte-for-byte; when the pairs sequence
is empty (pair count 0) or no PairItem matches, it falls back to the record's
raw pairs text when non-empty, else to the fixed N/A sentinel. -/
theorem claim_C6 :
    (∀ (msg : List Nat) (spans : List WordSpan) (hi : Int)
        (pt : Option (List Nat)) (pc : Nat),
      (hi < 0 ∨ (spans.length : Int) ≤ hi) →
      hover_select_text msg spans hi pt pc = none ∧
      update_hover_info_by_time msg spans hi pt pc = none) ∧
    (∀ (msg : List Nat) (spans : List WordSpan) (hi : Int) (pf : List Nat)
        (pc : Nat) (w : List Nat) (wi : List Nat × List Nat),
      0 ≤ hi → hi < (spans.length : Int) → 0 < pc → pf ≠ [] →
      utf8_substr_by_cp msg (spans.getD hi.toNat ⟨0, 0, 0, 0⟩).start_cp
        (spans.getD hi.toNat ⟨0, 0, 0, 0⟩).end_cp = some w →
      (extract_words_and_items_from_pairs pf).find? (fun p => p.1 == w) =
        some wi →
      hover_select_text msg spans hi (some pf) pc = some wi.2) ∧
    (∀ (msg : List Nat) (spans : List WordSpan) (hi : Int)
        (pt : Option (List Nat)),
      0 ≤ hi → hi < (spans.length : Int) →
      hover_select_text msg spans hi pt 0 =
        some (match pt with
              | some pf => if pf ≠ [] then pf else na_bytes
              | none => na_bytes)) ∧
    (∀ (msg : List Nat) (spans : List WordSpan) (hi : Int) (pf : List Nat)
        (pc : Nat) (w : List Nat),
      0 ≤ hi → hi < (spans.length : Int) → 0 < pc → pf ≠ [] →
      utf8_substr_by_cp msg (spans.getD hi.toNat ⟨0, 0, 0, 0⟩).start_cp
        (spans.getD hi.toNat ⟨0, 0, 0, 0⟩).end_cp = some w →
      (extract_words_and_items_from_pairs pf).find? (fun p => p.1 == w) =
        none →
      hover_select_text msg spans hi (some pf) pc = some pf) := by
  refine ⟨?_, ?_, ?_, ?_⟩
  · intro msg spans hi pt pc h
    have hs : hover_select_text msg spans hi pt pc = none := by
      unfold hover_select_text
      rw [if_pos h]
    exact ⟨hs, by unfold update_hover_info_by_time; rw [hs]; rfl⟩
  · intro msg spans hi pf pc w wi h0 h1 hpc hpf hsub hfind
    unfold hover_select_text
    rw [if_neg (by omega)]
    simp only [hsub, if_pos hpc, if_pos hpf, hfind, Option.map_some']
  · intro msg spans hi pt h0 h1
    unfold hover_select_text
    rw [if_neg (by omega)]
    cases hw : utf8_substr_by_cp msg
        ((spans.getD hi.toNat ⟨0, 0, 0, 0⟩).start_cp)
        ((spans.getD hi.toNat ⟨0, 0, 0, 0⟩).end_cp) with
    | none =>
      simp only [hw]
      cases pt with
      | none => rfl
      | some pf =>
        by_cases hpf : pf = []
        · simp [hpf]
        · simp [hpf]
    | some w =>
      simp only [hw, if_neg (by omega : ¬ (0 : Nat) < 0)]
      cases pt with
      | none => rfl
      | some pf =>
        by_cases hpf : pf = []
        · simp [hpf]
        · simp [hpf]
  · intro msg spans hi pf pc w h0 h1 hpc hpf hsub hfind
    unfold hover_select_text
    rw [if_neg (by omega)]
    simp only [hsub, if_pos hpc, if_pos hpf, hfind, Option.map_none']

/-- Witness for claim C6: the first-match rule at a concrete record. -/
theorem claim_C6_witness :
    hover_select_text (utf8 "你好世界") [⟨0, 2, 0, 20⟩, ⟨2, 4, 20, 20⟩] 1
      (some (utf8 "[\"你好: hi\", \"世界: world\"]")) 2 =
      some (utf8 "世界", utf8 "世界: world").2 :=
  claim_C6.2.1 (utf8 "你好世界") [⟨0, 2, 0, 20⟩, ⟨2, 4, 20, 20⟩] 1
    (utf8 "[\"你好: hi\", \"世界: world\"]") 2 (utf8 "世界")
    (utf8 "世界", utf8 "世界: world") (by decide) (by decide) (by decide)
    (by decide) (by decide) (by decide)

/-- Claim C7: before the hover text is displayed, a single space is inserted
before the first parenthesis byte when one exists, is not the first byte, and
the byte before it is not a space; a text whose parenthesis is already
preceded by a space is returned unchanged; in particular hello(greeting)
becomes hello (greeting). -/
theorem claim_C7 :
    (∀ pre rest : List Nat, (∀ c ∈ pre, c ≠ 40) → pre ≠ [] →
      pre.getLast? ≠ some 32 →
      insert_space_before_paren (pre ++ 40 :: rest) = pre ++ 32 :: 40 :: rest) ∧
    (∀ pre rest : List Nat, (∀ c ∈ pre, c ≠ 40) → pre.getLast? = some 32 →
      insert_space_before_paren (pre ++ 40 :: rest) = pre ++ 40 :: rest) ∧
    insert_space_before_paren (utf8 "hello(greeting)") =
      utf8 "hello (greeting)" ∧
    insert_space_before_paren (utf8 "hello (greeting)") =
      utf8 "hello (greeting)" := by
  refine ⟨?_, ?_, by decide, by decide⟩
  · intro pre rest hpre hne hlast
    have hall : ∀ c ∈ pre, (fun x : Nat => !(x == 40)) c = true := by
      intro c hc; simp [hpre c hc]
    have htake : (pre ++ 40 :: rest).takeWhile (fun x => !(x == 40)) = pre := by
      rw [takeWhile_append_all _ _ _ hall]
      simp [List.takeWhile_cons_of_neg]
    have hdrop : (pre ++ 40 :: rest).dropWhile (fun x => !(x == 40)) =
        40 :: rest := by
      rw [dropWhile_append_all _ _ _ hall]
      simp [List.dropWhile_cons_of_neg]
    unfold insert_space_before_paren
    simp only [htake, hdrop]
    rw [if_pos ⟨by simp, hne, hlast⟩]
  · intro pre rest hpre hlast
    have hall : ∀ c ∈ pre, (fun x : Nat => !(x == 40)) c = true := by
      intro c hc; simp [hpre c hc]
    have htake : (pre ++ 40 :: rest).takeWhile (fun x => !(x == 40)) = pre := by
      rw [takeWhile_append_all _ _ _ hall]
      simp [List.takeWhile_cons_of_neg]
    unfold insert_space_before_paren
    simp only [htake]
    rw [if_neg (by simp [hlast])]

/-- Witness for claim C7: insertion of the space at a concrete text. -/
theorem claim_C7_witness :
    insert_space_before_paren (utf8 "ab" ++ 40 :: utf8 "c)") =
      utf8 "ab" ++ 32 :: 40 :: utf8 "c)" :=
  claim_C7.1 (utf8 "ab") (utf8 "c)") (by decide) (by decide) (by decide)

/-- Claim C8: in the per-codepoint layout built by recreate_text_with_layout,
every x offset is the running sum of all prior widths (x_offset at i + 1
equals x_offset at i plus width at i), and the byte offsets recorded by
build_word_layout are strictly increasing, each advancing by the UTF-8
lead-byte-classified length (between 1 and 4) of the codepoint before it. -/
theorem claim_C8 :
    (∀ (s : List Nat) (m : List Nat → Int) (i : Nat),
      i + 1 < (recreate_layout s m).length →
      ((recreate_layout s m).getD (i + 1) (0, 0)).1 =
        ((recreate_layout s m).getD i (0, 0)).1 +
          ((recreate_layout s m).getD i (0, 0)).2) ∧
    (∀ (s : List Nat) (total i : Nat),
      i + 1 < (cpByteIndex s total).length →
      (cpByteIndex s total).getD (i + 1) 0 =
        (cpByteIndex s total).getD i 0 +
          utf8Adv (s.getD ((cpByteIndex s total).getD i 0) 0) ∧
      (cpByteIndex s total).getD i 0 < (cpByteIndex s total).getD (i + 1) 0) ∧
    (∀ c : Nat, 1 ≤ utf8Adv c ∧ utf8Adv c ≤ 4) := by
  refine ⟨?_, ?_, utf8Adv_bounds⟩
  · intro s m i h
    simp only [recreate_layout] at h ⊢
    exact chain'_getD (0, 0)
      (buildLayoutAux_chain (m := m) (utf8_count_codepoints s) s 0) i h
  · intro s total i h
    simp only [cpByteIndex] at h ⊢
    have hstep := chain'_getD 0 (cpByteIndexAux_chain (s := s) total 0) i h
    refine ⟨hstep, ?_⟩
    have hb :=
      (utf8Adv_bounds (s.getD ((cpByteIndexAux s total 0).getD i 0) 0)).1
    omega

/-- Witness for claim C8: both index invariants at a concrete string. -/
theorem claim_C8_witness :
    ((recreate_layout (utf8 "ab") (fun b => (b.length : Int))).getD 1 (0, 0)).1 =
      ((recreate_layout (utf8 "ab") (fun b => (b.length : Int))).getD 0 (0, 0)).1 +
        ((recreate_layout (utf8 "ab") (fun b => (b.length : Int))).getD 0 (0, 0)).2 ∧
    (cpByteIndex (utf8 "你好") 2).getD 0 0 < (cpByteIndex (utf8 "你好") 2).getD 1 0 :=
  ⟨claim_C8.1 (utf8 "ab") (fun b => (b.length : Int)) 0 (by decide),
   (claim_C8.2.1 (utf8 "你好") 2 0 (by decide)).2⟩

/-- Claim C9: a valid table line always overwrites the stored subtitle text at
its key, so of two lines with the same key the later one's subtitle text wins;
evaluated on a concrete two-line table with different subtitle texts. -/
theorem claim_C9 :
    (∀ (bd : BaseData) (raw : List Nat) (idx : Nat) (f2 : List Nat)
        (f3 f4 : Option (List Nat)),
      parse_base_line raw = some (idx, f2, f3, f4) →
      (apply_base_line bd raw).zht idx = some f2) ∧
    ((load_base_lines [utf8 "7\t600\t你好", utf8 "7\t600\t再见"]).zht 7 =
      some (utf8 "再见") ∧
     utf8 "你好" ≠ utf8 "再见") := by
  refine ⟨?_, by decide, by decide⟩
  intro bd raw idx f2 f3 f4 h
  unfold apply_base_line
  rw [h]
  simp

/-- Witness for claim C9: the overwrite rule applied at a concrete line. -/
theorem claim_C9_witness :
    (apply_base_line emptyBase (utf8 "7\t600\t你好")).zht 7 = some (utf8 "你好") :=
  claim_C9.1 emptyBase (utf8 "7\t600\t你好") 7 (utf8 "你好") none none (by decide)

/-- Claim C10: a duplicate line replaces only the fields it carries — when a
valid line omits the pairs field the stored pairs text at its key is
unchanged, and when it omits the translation field the stored translation text
is unchanged; evaluated on a concrete duplicate that keeps the earlier pairs
and translation while replacing the subtitle. -/
theorem claim_C10 :
    (∀ (bd : BaseData) (raw : List Nat) (idx : Nat) (f2 : List Nat)
        (f4 : Option (List Nat)),
      parse_base_line raw = some (idx, f2, none, f4) →
      (apply_base_line bd raw).pairs idx = bd.pairs idx) ∧
    (∀ (bd : BaseData) (raw : List Nat) (idx : Nat) (f2 : List Nat)
        (f3 : Option (List Nat)),
      parse_base_line raw = some (idx, f2, f3, none) →
      (apply_base_line bd raw).pt idx = bd.pt idx) ∧
    ((load_base_lines [utf8 "7\t600\t你好\tP1\tT1", utf8 "7\t600\t再见"]).pairs 7 =
      some (utf8 "P1") ∧
     (load_base_lines [utf8 "7\t600\t你好\tP1\tT1", utf8 "7\t600\t再见"]).pt 7 =
      some (utf8 "T1") ∧
     (load_base_lines [utf8 "7\t600\t你好\tP1\tT1", utf8 "7\t600\t再见"]).zht 7 =
      some (utf8 "再见")) := by
  refine ⟨?_, ?_, by decide, by decide, by decide⟩
  · intro bd raw idx f2 f4 h
    unfold apply_base_line
    rw [h]
    simp
  · intro bd raw idx f2 f3 h
    unfold apply_base_line
    rw [h]
    simp

/-- Witness for claim C10: field preservation applied at a concrete line. -/
theorem claim_C10_witness :
    (apply_base_line (load_base_lines [utf8 "7\t600\t你好\tP1\tT1"])
        (utf8 "7\t600\t再见")).pairs 7 =
      (load_base_lines [utf8 "7\t600\t你好\tP1\tT1"]).pairs 7 :=
  claim_C10.1 (load_base_lines [utf8 "7\t600\t你好\tP1\tT1"])
    (utf8 "7\t600\t再见") 7 (utf8 "再见") none (by decide)

end Subrim
